import Mathlib

/-!
Verification development for the SteLLaFuzz multi-agent seed-generation
pipeline (`stellafuzz-multiagent`).  Each Python function named in a claim is
shallowly embedded as an executable Lean definition; theorems below settle the
claims against those embeddings.

Conventions used throughout:
* Python strings are Lean `String`s; where character-level scanning is needed
  (regex search in `utils.message_to_json`) we work on `String.data`, the
  underlying `List Char`.
* `json.loads` / `json.dumps` are opaque third-party collaborators; they are
  passed in as parameters (`parse : String → Option α`, `dumps : α → String`)
  so theorems quantify over every possible JSON codec.
* Python exceptions are `Except` values; a function that cannot raise is total.
-/

namespace StellaFuzz

/-! ### `utils.message_to_json` (utils.py lines 72–84)

The Python code runs `re.search(r"```json\s*([\s\S]*?)```", message)`, strips
the captured group and feeds it to `json.loads`, returning `{}` when the search
fails or parsing raises.  The regex engine scans left to right for the first
position where the literal "```json" matches and a closing "```" occurs
somewhere later; the lazy group captures everything up to the first such
closing fence.  (`\s*` greedily eats leading whitespace of the group, but the
subsequent `.strip()` makes this equivalent to stripping the raw in-between
text, which is how we model it.) -/

/-- Characters of the opening fence literal "```json" of the regex. -/
def jsonFence : List Char := "```json".data

/-- Characters of the closing fence literal "```" of the regex. -/
def ticks : List Char := "```".data

/-- Content before the first occurrence of the closing fence "```", or `none`
when no closing fence occurs (mirrors the lazy group `([\s\S]*?)` followed by
the literal "```"). -/
def splitAtClose : List Char → Option (List Char)
  | [] => none
  | c :: rest =>
    if ticks.isPrefixOf (c :: rest) then some []
    else (splitAtClose rest).map (fun l => c :: l)

/-- Leftmost-match search of the regex `"```json" ([\s\S]*?) "```"`: try each
start position in order; at a position where the opening fence matches, the
match succeeds iff a closing fence occurs later (otherwise the engine
backtracks to the next start position). -/
def searchBlock : List Char → Option (List Char)
  | [] => none
  | c :: rest =>
    if jsonFence.isPrefixOf (c :: rest) then
      match splitAtClose ((c :: rest).drop 7) with
      | some content => some content
      | none => searchBlock rest
    else searchBlock rest

/-- Python `str.strip()`: remove leading and trailing whitespace characters. -/
def pyStrip (l : List Char) : List Char :=
  ((l.dropWhile Char.isWhitespace).reverse.dropWhile Char.isWhitespace).reverse

/-- Embedding of `utils.message_to_json`.  `parse` stands for `json.loads`
(returning `none` where the Python call would raise) and `empty` for the `{}`
returned on absence or parse failure.  The function is total: no input makes
it raise. -/
def message_to_json {α : Type} (parse : String → Option α) (empty : α)
    (msg : String) : α :=
  match searchBlock msg.data with
  | none => empty
  | some content => (parse (String.mk (pyStrip content))).getD empty

/-! Specification-side characterization of the regex search, written
independently of `splitAtClose`/`searchBlock` so that the contract theorem is
not a restatement of the code. -/

/-- Closing fence "```" occurs somewhere in the list. -/
def hasTicks : List Char → Bool
  | [] => false
  | c :: rest => ticks.isPrefixOf (c :: rest) || hasTicks rest

/-- Position `i` of `s` starts a fenced json block: the opening fence matches
there and a closing fence occurs after the opening fence. -/
def blockStartB (s : List Char) (i : Nat) : Bool :=
  jsonFence.isPrefixOf (s.drop i) && hasTicks (s.drop (i + 7))

/-- Closing fence "```" matches at offset `j` of `l`. -/
def ticksAt (l : List Char) (j : Nat) : Prop :=
  ticks.isPrefixOf (l.drop j) = true

instance (l : List Char) (j : Nat) : Decidable (ticksAt l j) := by
  unfold ticksAt; infer_instance

theorem splitAtClose_eq_none_of_no_ticks :
    ∀ l : List Char, hasTicks l = false → splitAtClose l = none := by
  intro l
  induction l with
  | nil => intro _; rfl
  | cons c rest ih =>
    intro h
    simp only [hasTicks, Bool.or_eq_false_iff] at h
    simp only [splitAtClose, h.1, if_neg Bool.false_ne_true, ih h.2,
      Option.map_none']

theorem hasTicks_of_ticksAt :
    ∀ (l : List Char) (j : Nat), ticksAt l j → hasTicks l = true := by
  intro l
  induction l with
  | nil =>
    intro j h
    simp only [ticksAt, List.drop_nil] at h
    simp [ticks, List.isPrefixOf] at h
  | cons c rest ih =>
    intro j h
    cases j with
    | zero =>
      simp only [ticksAt, List.drop_zero] at h
      simp [hasTicks, h]
    | succ j =>
      simp only [ticksAt, List.drop_succ_cons] at h
      simp [hasTicks, ih j h]

theorem splitAtClose_of_least_ticksAt :
    ∀ (l : List Char) (j : Nat), ticksAt l j →
      (∀ k, k < j → ¬ ticksAt l k) → splitAtClose l = some (l.take j) := by
  intro l
  induction l with
  | nil =>
    intro j h _
    simp only [ticksAt, List.drop_nil] at h
    simp [ticks, List.isPrefixOf] at h
  | cons c rest ih =>
    intro j h hmin
    cases j with
    | zero =>
      simp only [ticksAt, List.drop_zero] at h
      simp [splitAtClose, h]
    | succ j =>
      have h0 : ¬ ticksAt (c :: rest) 0 := hmin 0 (Nat.succ_pos j)
      simp only [ticksAt, List.drop_zero] at h0
      simp only [ticksAt, List.drop_succ_cons] at h
      have hmin' : ∀ k, k < j → ¬ ticksAt rest k := by
        intro k hk hc
        exact hmin (k + 1) (Nat.succ_lt_succ hk)
          (by simpa only [ticksAt, List.drop_succ_cons] using hc)
      have h0' : ticks.isPrefixOf (c :: rest) = false := by
        cases hb : ticks.isPrefixOf (c :: rest)
        · rfl
        · exact absurd hb h0
      simp only [splitAtClose, h0', Bool.false_eq_true, if_false, ih j h hmin',
        Option.map_some', List.take_succ_cons]

theorem blockStartB_cons_succ (c : Char) (rest : List Char) (i : Nat) :
    blockStartB (c :: rest) (i + 1) = blockStartB rest i := by
  simp only [blockStartB, List.drop_succ_cons]

theorem searchBlock_eq_none_of_no_blockStart :
    ∀ s : List Char, (∀ i, blockStartB s i = false) → searchBlock s = none := by
  intro s
  induction s with
  | nil => intro _; rfl
  | cons c rest ih =>
    intro h
    have h0 := h 0
    simp only [blockStartB, List.drop_zero, Bool.and_eq_false_iff] at h0
    have hrest : ∀ i, blockStartB rest i = false := by
      intro i
      have := h (i + 1)
      rwa [blockStartB_cons_succ] at this
    by_cases hf : jsonFence.isPrefixOf (c :: rest) = true
    · have hnt : hasTicks ((c :: rest).drop 7) = false := by
        rcases h0 with h0 | h0
        · exact absurd hf (by simp [h0])
        · exact h0
      simp only [searchBlock, if_pos hf,
        splitAtClose_eq_none_of_no_ticks _ hnt, ih hrest]
    · simp only [searchBlock, if_neg hf, ih hrest]

theorem hasTicks_eq_false_of_splitAtClose_eq_none :
    ∀ l : List Char, splitAtClose l = none → hasTicks l = false := by
  intro l
  induction l with
  | nil => intro _; rfl
  | cons c rest ih =>
    intro h
    simp only [splitAtClose] at h
    by_cases ht : ticks.isPrefixOf (c :: rest) = true
    · simp [ht] at h
    · have ht' : ticks.isPrefixOf (c :: rest) = false := by
        cases hb : ticks.isPrefixOf (c :: rest)
        · rfl
        · exact absurd hb ht
      simp only [if_neg ht, Option.map_eq_none'] at h
      simp only [hasTicks, Bool.or_eq_false_iff]
      exact ⟨ht', ih h⟩

theorem searchBlock_of_least_blockStart :
    ∀ (s : List Char) (i : Nat), blockStartB s i = true →
      (∀ k, k < i → blockStartB s k = false) →
      searchBlock s = splitAtClose (s.drop (i + 7)) := by
  intro s
  induction s with
  | nil =>
    intro i h _
    simp only [blockStartB, List.drop_nil, Bool.and_eq_true] at h
    simp [jsonFence, List.isPrefixOf] at h
  | cons c rest ih =>
    intro i h hmin
    cases i with
    | zero =>
      simp only [blockStartB, List.drop_zero, Bool.and_eq_true] at h
      obtain ⟨hf, ht⟩ := h
      cases hsc : splitAtClose ((c :: rest).drop 7) with
      | none =>
        have := hasTicks_eq_false_of_splitAtClose_eq_none _ hsc
        rw [this] at ht
        exact absurd ht Bool.false_ne_true
      | some content =>
        simp only [searchBlock, if_pos hf, hsc, List.drop_zero]
    | succ i =>
      have h0 := hmin 0 (Nat.succ_pos i)
      simp only [blockStartB, List.drop_zero, Bool.and_eq_false_iff] at h0
      have hrest : blockStartB rest i = true := by
        rwa [blockStartB_cons_succ] at h
      have hminr : ∀ k, k < i → blockStartB rest k = false := by
        intro k hk
        have := hmin (k + 1) (Nat.succ_lt_succ hk)
        rwa [blockStartB_cons_succ] at this
      have hdrop : (c :: rest).drop (i + 1 + 7) = rest.drop (i + 7) := by
        have : i + 1 + 7 = (i + 7) + 1 := by omega
        rw [this, List.drop_succ_cons]
      rw [hdrop]
      by_cases hf : jsonFence.isPrefixOf (c :: rest) = true
      · have hnt : hasTicks ((c :: rest).drop 7) = false := by
          rcases h0 with h0 | h0
          · exact absurd hf (by simp [h0])
          · exact h0
        simp only [searchBlock, if_pos hf,
          splitAtClose_eq_none_of_no_ticks _ hnt, ih i hrest hminr]
      · simp only [searchBlock, if_neg hf, ih i hrest hminr]

/-- Helper: beyond the end of the text no fenced block can start. -/
theorem blockStartB_eq_false_of_length_le (l : List Char) (i : Nat)
    (h : l.length ≤ i) : blockStartB l i = false := by
  have h1 : l.drop i = [] := List.drop_eq_nil_of_le h
  have h2 : l.drop (i + 7) = [] := List.drop_eq_nil_of_le (by omega)
  unfold blockStartB
  rw [h1, h2]
  rfl

/-- C9: for every input text, the structured-response extractor never raises
(it is a total function): if the text contains no "```json" fenced block
(no position starts an opening fence with a later closing fence), it returns
the empty result; if the first such block's stripped content does not parse,
it returns the empty result; otherwise it returns the parsed value of that
block.  Positions are characterized by least-index conditions, independent of
the implementation's backtracking search. -/
theorem message_to_json_contract {α : Type} (parse : String → Option α) (e : α)
    (s : String) :
    ((∀ i, blockStartB s.data i = false) → message_to_json parse e s = e)
    ∧ (∀ i j, blockStartB s.data i = true →
        (∀ k, k < i → blockStartB s.data k = false) →
        ticksAt (s.data.drop (i + 7)) j →
        (∀ k, k < j → ¬ ticksAt (s.data.drop (i + 7)) k) →
        ((parse (String.mk (pyStrip ((s.data.drop (i + 7)).take j))) = none →
            message_to_json parse e s = e)
          ∧ ∀ v, parse (String.mk (pyStrip ((s.data.drop (i + 7)).take j))) = some v →
            message_to_json parse e s = v)) := by
  constructor
  · intro h
    unfold message_to_json
    rw [searchBlock_eq_none_of_no_blockStart s.data h]
  · intro i j hb hbmin ht htmin
    have hsb : searchBlock s.data = some ((s.data.drop (i + 7)).take j) := by
      rw [searchBlock_of_least_blockStart s.data i hb hbmin,
        splitAtClose_of_least_ticksAt _ j ht htmin]
    refine ⟨fun hp => ?_, fun v hp => ?_⟩
    · unfold message_to_json
      rw [hsb]
      simp [hp]
    · unfold message_to_json
      rw [hsb]
      simp [hp]

/-- Witness for C9 at concrete inputs: a text whose first fenced block parses
to `42` yields `42`; a text with no fenced block yields the empty value. -/
theorem message_to_json_contract_witness :
    message_to_json (fun t => if t = "42" then some 42 else none) 0
      "see ```json 42 ``` end" = 42
    ∧ message_to_json (fun t => if t = "42" then some 42 else none) 0
      "no block here" = 0 := by
  constructor
  · exact ((message_to_json_contract (fun t => if t = "42" then some 42 else none)
      0 "see ```json 42 ``` end").2 4 4 (by decide) (by decide) (by decide)
      (by decide)).2 42 (by decide)
  · refine (message_to_json_contract (fun t => if t = "42" then some 42 else none)
      0 "no block here").1 (fun i => ?_)
    by_cases h : i < 14
    · revert h
      revert i
      decide
    · exact blockStartB_eq_false_of_length_le _ i
        (le_trans (by decide) (Nat.le_of_not_lt h))

/-! ### `MCPClient.process_messages_streaming` (client.py lines 143–245)

The streaming loop consumes events; each event's delta may carry a content
fragment, indexed tool-call fragments, and a finish reason.  Python truthiness
(`if delta.content:`) means "present and non-empty", modeled by `truthyS`.
The accumulator `tool_calls_acc` is a dict keyed by the fragment's index; the
Python `dict.setdefault` inserts at the end in insertion order, modeled by an
association list with unique keys (`updateAssoc`). -/

/-- Python string truthiness of an optional string field. -/
def truthyS : Option String → Bool
  | none => false
  | some s => !s.isEmpty

/-- Fragment of one indexed tool call's `function` field
(`tc.function.name` / `tc.function.arguments` of a stream delta). -/
structure FuncDelta where
  name : Option String
  arguments : Option String
deriving DecidableEq

/-- One element of `delta.tool_calls` in a stream event. -/
structure ToolCallDelta where
  index : Nat
  id : Option String
  ty : Option String
  function : Option FuncDelta
deriving DecidableEq

/-- One stream event's delta plus the choice's finish reason. -/
structure Delta where
  content : Option String
  tool_calls : List ToolCallDelta
  finish_reason : Option String
deriving DecidableEq

/-- Accumulator slot: `{"id": ..., "type": ..., "function": {"name": ...,
"arguments": ...}}` of `tool_calls_acc[idx]`. -/
structure Slot where
  id : Option String
  ty : Option String
  name : String
  args : String
deriving DecidableEq

/-- Fresh slot made by `setdefault`: id `None`, type from the creating delta,
empty name and arguments. -/
def slotDefault (tc : ToolCallDelta) : Slot :=
  ⟨none, tc.ty, "", ""⟩

/-- Line `if tc.id: slot["id"] = tc.id`. -/
def slotUpdateId (id : Option String) (s : Slot) : Slot :=
  if truthyS id then { s with id := id } else s

/-- Line `if tc.function.name: slot["function"]["name"] = tc.function.name`. -/
def slotUpdateName (name : Option String) (s : Slot) : Slot :=
  if truthyS name then { s with name := name.getD "" } else s

/-- Line `if tc.function.arguments:
slot["function"]["arguments"] += tc.function.arguments`. -/
def slotUpdateArgs (args : Option String) (s : Slot) : Slot :=
  if truthyS args then { s with args := s.args ++ args.getD "" } else s

/-- Block `if tc.function:` guarding the name/arguments updates. -/
def slotUpdateFunc : Option FuncDelta → Slot → Slot
  | none, s => s
  | some f, s => slotUpdateArgs f.arguments (slotUpdateName f.name s)

/-- Mutations one tool-call delta applies to its slot: overwrite id when
truthy, then (when a function delta is present) overwrite name when truthy and
append the argument fragment when truthy. -/
def slotUpdate (tc : ToolCallDelta) (s : Slot) : Slot :=
  slotUpdateFunc tc.function (slotUpdateId tc.id s)

/-- Dict `setdefault`-then-mutate on an association list with unique keys:
update the entry at key `i` in place, or append a mutated default at the end
when absent. -/
def updateAssoc (acc : List (Nat × Slot)) (i : Nat) (f : Slot → Slot)
    (dflt : Slot) : List (Nat × Slot) :=
  match acc with
  | [] => [(i, f dflt)]
  | (k, s) :: rest =>
    if k = i then (k, f s) :: rest else (k, s) :: updateAssoc rest i f dflt

/-- Processing of one `tc` in `delta.tool_calls`. -/
def applyTC (acc : List (Nat × Slot)) (tc : ToolCallDelta) : List (Nat × Slot) :=
  updateAssoc acc tc.index (slotUpdate tc) (slotDefault tc)

/-- Dict lookup in the accumulator. -/
def lookupSlot (acc : List (Nat × Slot)) (i : Nat) : Option Slot :=
  (acc.find? (fun p => p.1 == i)).map (fun p => p.2)

/-- Streaming loop state: `assistant_text_parts`, `tool_calls_acc`,
`finish_reason`. -/
structure AggState where
  textParts : List String
  acc : List (Nat × Slot)
  finish : Option String
deriving DecidableEq

/-- Processing of one stream event (one iteration of `for event in stream`). -/
def stepDelta (st : AggState) (d : Delta) : AggState :=
  { textParts :=
      if truthyS d.content then st.textParts ++ [d.content.getD ""]
      else st.textParts
    acc := d.tool_calls.foldl applyTC st.acc
    finish := if truthyS d.finish_reason then d.finish_reason else st.finish }

/-- The whole event loop, from the empty initial state. -/
def aggregate (events : List Delta) : AggState :=
  events.foldl stepDelta ⟨[], [], none⟩

/-- Python `"".join`. -/
def joinStr : List String → String
  | [] => ""
  | s :: rest => s ++ joinStr rest

/-- Finalized tool-call request
(`ChatCompletionMessageToolCallParam`). -/
structure ToolCallReq where
  id : String
  ty : String
  name : String
  args : String
deriving DecidableEq

/-- Insertion into a key-sorted list (for `sorted(tool_calls_acc.keys())`). -/
def insertByKey (p : Nat × Slot) : List (Nat × Slot) → List (Nat × Slot)
  | [] => [p]
  | q :: rest => if p.1 ≤ q.1 then p :: q :: rest else q :: insertByKey p rest

/-- Sorting of the accumulator by index (keys are unique). -/
def sortByKey : List (Nat × Slot) → List (Nat × Slot)
  | [] => []
  | p :: rest => insertByKey p (sortByKey rest)

/-- Finalization of one slot: `id=slot["id"] or f"tool_{idx}"`,
`type=slot["type"] or "function"`. -/
def finalizeSlot (i : Nat) (s : Slot) : ToolCallReq :=
  { id := if truthyS s.id then s.id.getD "" else "tool_" ++ toString i
    ty := if truthyS s.ty then s.ty.getD "" else "function"
    name := s.name
    args := s.args }

/-- Building of `assistant_tool_calls` from the accumulator in sorted index
order. -/
def finalizeToolCalls (acc : List (Nat × Slot)) : List ToolCallReq :=
  (sortByKey acc).map (fun p => finalizeSlot p.1 p.2)

/-- Conversation message (`ChatCompletionMessageParam` variants used by the
client). -/
inductive Msg where
  | system (content : String)
  | user (content : String)
  | assistantText (content : String)
  | assistantToolCalls (tool_calls : List ToolCallReq)
  | toolResult (tool_call_id : String) (content : String)
deriving DecidableEq

/-- The three `ValueError` raises of the finish-reason dispatch
(lines 239–245): length limit, content filter, and unknown reason (the
unknown case embeds the offending reason in its message, `None` included). -/
inductive StreamErr where
  | lengthLimit
  | contentFilter
  | unknown (reason : Option String)
deriving DecidableEq

/-- Outcome of one round trip at the dispatch hand-off point. -/
inductive RoundOut where
  | done
  | toolPhase (reqs : List ToolCallReq)
  | fatal (e : StreamErr)
deriving DecidableEq

/-- One round of `process_messages_streaming` (client.py lines 162–245),
up to the point where the `tool_calls` branch hands the finalized requests to
the dispatcher and recurses: the event loop is run, then the finish reason is
dispatched.  The returned list is the message list after the call's own
appends (the real code mutates `messages` in place; appends happen only in
the `stop` and `tool_calls` branches, before any raise). -/
def process_messages_streaming_step (messages : List Msg) (events : List Delta) :
    List Msg × RoundOut :=
  let st := aggregate events
  if st.finish = some "stop" then
    (messages ++ [Msg.assistantText (joinStr st.textParts)], RoundOut.done)
  else if st.finish = some "tool_calls" then
    (messages ++ [Msg.assistantToolCalls (finalizeToolCalls st.acc)],
      RoundOut.toolPhase (finalizeToolCalls st.acc))
  else if st.finish = some "length" then
    (messages, RoundOut.fatal StreamErr.lengthLimit)
  else if st.finish = some "content_filter" then
    (messages, RoundOut.fatal StreamErr.contentFilter)
  else
    (messages, RoundOut.fatal (StreamErr.unknown st.finish))

/-! Specification-side fragment sequences, per the spec's §4.1 and §8. -/

/-- All content fragments carried by the events, in arrival order. -/
def contentFrags (events : List Delta) : List String :=
  events.filterMap (fun d => d.content)

/-- Argument fragment carried by one tool-call delta, if any. -/
def argFragOfTC (tc : ToolCallDelta) : Option String :=
  tc.function.bind (fun f => f.arguments)

/-- Argument fragments for index `i` carried by one event, in order. -/
def deltaArgFrags (i : Nat) (d : Delta) : List String :=
  (d.tool_calls.filter (fun tc => tc.index == i)).filterMap argFragOfTC

/-- Argument fragments for index `i` across the whole stream, arrival order. -/
def argFrags (events : List Delta) (i : Nat) : List String :=
  (events.map (deltaArgFrags i)).flatten

theorem joinStr_append (l1 l2 : List String) :
    joinStr (l1 ++ l2) = joinStr l1 ++ joinStr l2 := by
  induction l1 with
  | nil => simp [joinStr, String.empty_append]
  | cons s rest ih => simp [joinStr, ih, String.append_assoc]

theorem slotUpdateId_args (id : Option String) (s : Slot) :
    (slotUpdateId id s).args = s.args := by
  unfold slotUpdateId
  split <;> rfl

theorem slotUpdateName_args (name : Option String) (s : Slot) :
    (slotUpdateName name s).args = s.args := by
  unfold slotUpdateName
  split <;> rfl

theorem slotUpdateArgs_args (a : Option String) (s : Slot) :
    (slotUpdateArgs a s).args = s.args ++ joinStr a.toList := by
  unfold slotUpdateArgs
  cases a with
  | none => simp [truthyS, joinStr, String.append_empty]
  | some x =>
    by_cases hx : x.isEmpty
    · have hx' : x = "" := (String.isEmpty_iff x).mp hx
      simp [truthyS, hx, hx', joinStr, String.append_empty]
    · simp [truthyS, hx, joinStr, String.append_empty]

theorem slotUpdate_args (tc : ToolCallDelta) (s : Slot) :
    (slotUpdate tc s).args = s.args ++ joinStr (argFragOfTC tc).toList := by
  unfold slotUpdate slotUpdateFunc argFragOfTC
  cases tc.function with
  | none => simp [joinStr, String.append_empty, slotUpdateId_args]
  | some f =>
    simp [slotUpdateArgs_args, slotUpdateName_args, slotUpdateId_args]

theorem lookupSlot_cons_self (k : Nat) (s : Slot) (rest : List (Nat × Slot)) :
    lookupSlot ((k, s) :: rest) k = some s := by
  unfold lookupSlot
  rw [List.find?_cons_of_pos _ (by simp)]
  rfl

theorem lookupSlot_cons_ne (k : Nat) (s : Slot) (rest : List (Nat × Slot))
    (j : Nat) (h : ¬ k = j) :
    lookupSlot ((k, s) :: rest) j = lookupSlot rest j := by
  unfold lookupSlot
  rw [List.find?_cons_of_neg _ (by simp [h])]

theorem lookupSlot_updateAssoc (i : Nat) (f : Slot → Slot) (dflt : Slot) :
    ∀ (acc : List (Nat × Slot)) (j : Nat),
      lookupSlot (updateAssoc acc i f dflt) j =
        if j = i then some (f ((lookupSlot acc i).getD dflt))
        else lookupSlot acc j := by
  intro acc
  induction acc with
  | nil =>
    intro j
    by_cases h : j = i
    · subst h
      unfold updateAssoc
      rw [lookupSlot_cons_self, if_pos rfl]
      rfl
    · unfold updateAssoc
      rw [lookupSlot_cons_ne i (f dflt) [] j (fun he => h he.symm), if_neg h]
  | cons p rest ih =>
    obtain ⟨k, s⟩ := p
    intro j
    by_cases hk : k = i
    · subst hk
      have hu : updateAssoc ((k, s) :: rest) k f dflt = (k, f s) :: rest := by
        simp [updateAssoc]
      rw [hu]
      by_cases hj : j = k
      · subst hj
        rw [lookupSlot_cons_self, if_pos rfl, lookupSlot_cons_self]
        rfl
      · rw [lookupSlot_cons_ne _ _ _ _ (fun he => hj he.symm), if_neg hj,
          lookupSlot_cons_ne _ _ _ _ (fun he => hj he.symm)]
    · have hu : updateAssoc ((k, s) :: rest) i f dflt
          = (k, s) :: updateAssoc rest i f dflt := by
        simp only [updateAssoc, if_neg hk]
      rw [hu]
      by_cases hj : j = k
      · subst hj
        rw [lookupSlot_cons_self, if_neg hk, lookupSlot_cons_self]
      · rw [lookupSlot_cons_ne _ _ _ _ (fun he => hj he.symm), ih j,
          lookupSlot_cons_ne k s rest i hk]
        by_cases hji : j = i
        · rw [if_pos hji, if_pos hji]
        · rw [if_neg hji, if_neg hji,
            lookupSlot_cons_ne k s rest j (fun he => hj he.symm)]

/-- Arguments string currently accumulated for index `i` (empty when the slot
does not exist yet). -/
def accArgs (acc : List (Nat × Slot)) (i : Nat) : String :=
  ((lookupSlot acc i).map (fun s => s.args)).getD ""

theorem accArgs_applyTC (acc : List (Nat × Slot)) (tc : ToolCallDelta)
    (i : Nat) :
    accArgs (applyTC acc tc) i =
      if i = tc.index then accArgs acc i ++ joinStr (argFragOfTC tc).toList
      else accArgs acc i := by
  unfold accArgs applyTC
  rw [lookupSlot_updateAssoc]
  by_cases h : i = tc.index
  · subst h
    cases hl : lookupSlot acc tc.index with
    | none => simp [hl, slotUpdate_args, slotDefault, String.empty_append]
    | some s => simp [hl, slotUpdate_args]
  · simp [h]

theorem accArgs_foldl_applyTC (i : Nat) :
    ∀ (tcs : List ToolCallDelta) (acc : List (Nat × Slot)),
      accArgs (tcs.foldl applyTC acc) i =
        accArgs acc i
          ++ joinStr ((tcs.filter (fun tc => tc.index == i)).filterMap argFragOfTC) := by
  intro tcs
  induction tcs with
  | nil =>
    intro acc
    simp [joinStr, String.append_empty]
  | cons tc rest ih =>
    intro acc
    rw [List.foldl_cons, ih]
    by_cases h : tc.index = i
    · have hb : (tc.index == i) = true := by simp [h]
      rw [accArgs_applyTC, if_pos h.symm]
      rw [List.filter_cons_of_pos (by simpa using hb)]
      cases hf : argFragOfTC tc with
      | none =>
        simp [List.filterMap_cons, hf, String.append_empty, joinStr]
      | some a =>
        simp [List.filterMap_cons, hf, joinStr, String.append_assoc,
          String.append_empty]
    · have hb : (tc.index == i) = false := by simp [h]
      rw [accArgs_applyTC, if_neg (fun he => h he.symm)]
      rw [List.filter_cons_of_neg (by simpa using hb)]

theorem accArgs_foldl_stepDelta (i : Nat) :
    ∀ (events : List Delta) (st : AggState),
      accArgs ((events.foldl stepDelta st).acc) i =
        accArgs st.acc i ++ joinStr (argFrags events i) := by
  intro events
  induction events with
  | nil =>
    intro st
    simp [argFrags, joinStr, String.append_empty]
  | cons d rest ih =>
    intro st
    rw [List.foldl_cons, ih]
    have hacc : (stepDelta st d).acc = d.tool_calls.foldl applyTC st.acc := rfl
    rw [hacc, accArgs_foldl_applyTC]
    have hfr : argFrags (d :: rest) i = deltaArgFrags i d ++ argFrags rest i := by
      simp [argFrags]
    rw [hfr, joinStr_append, String.append_assoc]
    rfl

/-- C4: for every finite event stream and every interleaving of tool-argument
fragments across the indexed tool calls, the aggregator reconstructs each
index's arguments as the exact concatenation of that index's fragments in
arrival order — the result depends only on the subsequence of fragments with
that index, hence is independent of how fragments of different indices
interleave. -/
theorem aggregator_reconstructs_args (events : List Delta) (i : Nat)
    (slot : Slot) (h : lookupSlot (aggregate events).acc i = some slot) :
    slot.args = joinStr (argFrags events i) := by
  have h2 : accArgs ((aggregate events).acc) i = joinStr (argFrags events i) := by
    unfold aggregate
    rw [accArgs_foldl_stepDelta]
    simp [accArgs, lookupSlot, List.find?, String.empty_append]
  unfold accArgs at h2
  rw [h] at h2
  simpa using h2

/-- Interleaved two-index event stream used by the C4 witness: index 0
receives fragments "a" then "b", index 1 receives "x" then "y", interleaved
across two events. -/
def c4Events : List Delta :=
  [⟨none, [⟨0, some "id0", some "function", some ⟨some "toolA", some "a"⟩⟩,
      ⟨1, none, none, some ⟨some "toolB", some "x"⟩⟩], none⟩,
   ⟨none, [⟨1, none, none, some ⟨none, some "y"⟩⟩,
      ⟨0, none, none, some ⟨none, some "b"⟩⟩], some "tool_calls"⟩]

/-- Witness for C4: on the interleaved stream, index 0's slot holds exactly
"ab", the concatenation of its own fragments in arrival order. -/
theorem aggregator_reconstructs_args_witness :
    lookupSlot (aggregate c4Events).acc 0
        = some ⟨some "id0", some "function", "toolA", "ab"⟩
    ∧ (⟨some "id0", some "function", "toolA", "ab"⟩ : Slot).args
        = joinStr (argFrags c4Events 0) :=
  ⟨by decide,
    aggregator_reconstructs_args c4Events 0
      ⟨some "id0", some "function", "toolA", "ab"⟩ (by decide)⟩

theorem textParts_foldl_stepDelta :
    ∀ (events : List Delta) (st : AggState),
      (events.foldl stepDelta st).textParts =
        st.textParts ++ (contentFrags events).filter (fun s => !s.isEmpty) := by
  intro events
  induction events with
  | nil =>
    intro st
    simp [contentFrags]
  | cons d rest ih =>
    intro st
    rw [List.foldl_cons, ih]
    have hstep : (stepDelta st d).textParts =
        if truthyS d.content then st.textParts ++ [d.content.getD ""]
        else st.textParts := rfl
    rw [hstep]
    cases hd : d.content with
    | none =>
      simp [contentFrags, truthyS, List.filterMap_cons, hd]
    | some c =>
      by_cases hc : c.isEmpty
      · have hce : c = "" := (String.isEmpty_iff c).mp hc
        simp [contentFrags, truthyS, hd, hc, List.filterMap_cons, hce,
          show ("".isEmpty) = true from rfl]
      · simp [contentFrags, truthyS, hd, hc, List.filterMap_cons,
          List.append_assoc]

theorem joinStr_filter_nonempty (l : List String) :
    joinStr (l.filter (fun s => !s.isEmpty)) = joinStr l := by
  induction l with
  | nil => rfl
  | cons s rest ih =>
    by_cases h : s.isEmpty
    · have hs : s = "" := (String.isEmpty_iff s).mp h
      simp [List.filter_cons, h, hs, joinStr, ih, String.empty_append,
        show ("".isEmpty) = true from rfl]
    · simp [List.filter_cons, h, joinStr, ih]

theorem aggregate_textParts_join (events : List Delta) :
    joinStr (aggregate events).textParts = joinStr (contentFrags events) := by
  unfold aggregate
  rw [textParts_foldl_stepDelta]
  have : (⟨[], [], none⟩ : AggState).textParts = [] := rfl
  rw [this, List.nil_append, joinStr_filter_nonempty]

/-- C6: for every event stream whose (last truthy) finish reason is `stop`,
the round appends exactly one assistant message whose content equals the
concatenation of all content fragments in arrival order, and the outcome is
`done`: no tool-call requests are emitted and no tool call is dispatched,
even if tool-call fragments were accumulated in the events. -/
theorem stop_appends_single_text_message (messages : List Msg)
    (events : List Delta) (h : (aggregate events).finish = some "stop") :
    process_messages_streaming_step messages events
      = (messages ++ [Msg.assistantText (joinStr (contentFrags events))],
          RoundOut.done) := by
  simp only [process_messages_streaming_step, h, if_true, eq_self_iff_true]
  rw [aggregate_textParts_join]

/-- Witness for C6: a stream carrying both content fragments and a tool-call
fragment but finishing with `stop` appends one assistant message "hi there"
and dispatches nothing. -/
theorem stop_appends_single_text_message_witness :
    (aggregate [⟨some "hi ", [⟨0, none, none, some ⟨some "t", some "x"⟩⟩], none⟩,
        ⟨some "there", [], some "stop"⟩]).finish = some "stop"
    ∧ process_messages_streaming_step [Msg.user "q"]
        [⟨some "hi ", [⟨0, none, none, some ⟨some "t", some "x"⟩⟩], none⟩,
          ⟨some "there", [], some "stop"⟩]
      = ([Msg.user "q", Msg.assistantText "hi there"], RoundOut.done) := by
  refine ⟨by decide, ?_⟩
  rw [stop_appends_single_text_message _ _ (by decide)]
  decide

/-- C5: for every event stream whose (last truthy) finish reason is `length`,
`content_filter`, or any unrecognized value (including no finish reason at
all), the round raises a failure distinguishing the three cases — length
limit, content filter, unknown reason (carrying the offending value) — and
the message list is returned exactly as it was before the round's assistant
turn: no assistant or tool message is appended. -/
theorem fatal_reasons_distinguished_no_mutation (messages : List Msg)
    (events : List Delta) :
    ((aggregate events).finish = some "length" →
      process_messages_streaming_step messages events
        = (messages, RoundOut.fatal StreamErr.lengthLimit))
    ∧ ((aggregate events).finish = some "content_filter" →
      process_messages_streaming_step messages events
        = (messages, RoundOut.fatal StreamErr.contentFilter))
    ∧ (∀ r : Option String, (aggregate events).finish = r →
        r ≠ some "stop" → r ≠ some "tool_calls" → r ≠ some "length" →
        r ≠ some "content_filter" →
        process_messages_streaming_step messages events
          = (messages, RoundOut.fatal (StreamErr.unknown r))) := by
  refine ⟨fun h => ?_, fun h => ?_, fun r h h1 h2 h3 h4 => ?_⟩
  · simp [process_messages_streaming_step, h]
  · simp [process_messages_streaming_step, h]
  · simp only [process_messages_streaming_step, h]
    rw [if_neg h1, if_neg h2, if_neg h3, if_neg h4]

/-- Witness for C5 at concrete streams: `length` and `content_filter` and the
unrecognized reason "weird" each produce their distinguished fatal outcome
with the message list unchanged. -/
theorem fatal_reasons_distinguished_no_mutation_witness :
    process_messages_streaming_step [Msg.user "q"] [⟨none, [], some "length"⟩]
      = ([Msg.user "q"], RoundOut.fatal StreamErr.lengthLimit)
    ∧ process_messages_streaming_step [Msg.user "q"]
        [⟨none, [], some "content_filter"⟩]
      = ([Msg.user "q"], RoundOut.fatal StreamErr.contentFilter)
    ∧ process_messages_streaming_step [Msg.user "q"] [⟨none, [], some "weird"⟩]
      = ([Msg.user "q"], RoundOut.fatal (StreamErr.unknown (some "weird"))) :=
  ⟨(fatal_reasons_distinguished_no_mutation [Msg.user "q"]
      [⟨none, [], some "length"⟩]).1 (by decide),
   (fatal_reasons_distinguished_no_mutation [Msg.user "q"]
      [⟨none, [], some "content_filter"⟩]).2.1 (by decide),
   (fatal_reasons_distinguished_no_mutation [Msg.user "q"]
      [⟨none, [], some "weird"⟩]).2.2 (some "weird") (by decide) (by decide)
      (by decide) (by decide) (by decide)⟩

/-- C7 counterexample: re-submitting an already-Done conversation state (a
user turn answered by a final assistant text message, no pending tool calls)
through the round-trip loop mutates the list — the code unconditionally runs
a fresh exchange and, on a `stop`-terminated stream, appends a new assistant
message, so the result differs from the input list. -/
theorem resubmit_done_mutates_counterexample :
    (process_messages_streaming_step [Msg.user "hi", Msg.assistantText "hello"]
        [⟨some "again", [], some "stop"⟩]).1
      ≠ [Msg.user "hi", Msg.assistantText "hello"] := by
  decide

/-- C7 amended: re-submitting a conversation state (in particular an
already-Done one) performs a fresh round trip rather than a no-op: whenever
the new stream terminates with `stop`, exactly one new assistant message is
appended, so the list is strictly extended — it is mutated, with the original
list as a proper prefix. -/
theorem resubmit_done_appends_new_assistant_turn (messages : List Msg)
    (events : List Delta) (h : (aggregate events).finish = some "stop") :
    (process_messages_streaming_step messages events).1
        = messages ++ [Msg.assistantText (joinStr (contentFrags events))]
    ∧ (process_messages_streaming_step messages events).1 ≠ messages := by
  have hstep : process_messages_streaming_step messages events
      = (messages ++ [Msg.assistantText (joinStr (contentFrags events))],
          RoundOut.done) := by
    simp only [process_messages_streaming_step, h, if_true, eq_self_iff_true]
    rw [aggregate_textParts_join]
  refine ⟨by rw [hstep], ?_⟩
  rw [hstep]
  intro heq
  have hlen := congrArg List.length heq
  simp at hlen

/-- Witness for C7's amended claim: a Done state plus a `stop` stream yields a
strictly longer list (hence a mutation). -/
theorem resubmit_done_appends_new_assistant_turn_witness :
    (aggregate [⟨some "hi", [], some "stop"⟩]).finish = some "stop"
    ∧ (process_messages_streaming_step [Msg.assistantText "done"]
        [⟨some "hi", [], some "stop"⟩]).1 ≠ [Msg.assistantText "done"] :=
  ⟨by decide,
   (resubmit_done_appends_new_assistant_turn [Msg.assistantText "done"]
      [⟨some "hi", [], some "stop"⟩] (by decide)).2⟩

/-! ### `MCPClient.process_tool_call` (client.py lines 100–141)

The dispatcher asserts the call's type, decodes the aggregated arguments
string with `json.loads(arguments or "{}")` — an uncaught `JSONDecodeError`
when the string is non-empty but malformed — then invokes the collaborator
(`session.call_tool`) up to `max_try = 5` times, breaking at the first
non-error result.  On retry exhaustion the error is embedded into the result
payload; on success the text parts are collected (truncated to 256000
characters), any non-text part raising `NotImplementedError`.  The
collaborator is modeled as a function from the invocation ordinal (0-based)
to that invocation's result; the returned `Nat` counts the invocations
actually performed.  An `Except.error` outcome models an uncaught exception,
which aborts the whole round trip (the enclosing `asyncio.gather`). -/

/-- One part of a collaborator result (`call_tool_result.content`). -/
inductive ResultPart where
  | text (s : String)
  | other (ty : String)
deriving DecidableEq

/-- Collaborator response (`CallToolResult`): error flag plus content parts. -/
structure CallToolResult where
  isError : Bool
  content : List ResultPart
deriving DecidableEq

/-- Uncaught exceptions of `process_tool_call`: the assertion on the call
type, the arguments `json.loads` failure, and `NotImplementedError` on a
non-text result part. -/
inductive ToolCallErr where
  | assertFailed
  | decodeErr
  | notImplemented (ty : String)
deriving DecidableEq

/-- The tool message returned on completion
(`ChatCompletionToolMessageParam`): its content is
`json.dumps({**tool_args, tool_name: results})`, modeled structurally as the
decoded arguments (of opaque JSON type `β`), the tool name and the results
list, plus the correlating `tool_call_id`. -/
structure ToolResultMsg (β : Type) where
  args : β
  toolName : String
  results : List String
  tool_call_id : String
deriving DecidableEq

/-- The retry loop `for t in range(max_try)` starting at ordinal `t` with the
given remaining iterations: invoke, break on the first non-error result, keep
the last result otherwise.  Returns (number of invocations, last result). -/
def runRetryAux (collab : Nat → CallToolResult) : Nat → Nat → Nat × CallToolResult
  | _, 0 => (0, ⟨true, []⟩)
  | t, 1 => (1, collab t)
  | t, n + 2 =>
    let r := collab t
    if r.isError then
      let p := runRetryAux collab (t + 1) (n + 1)
      (p.1 + 1, p.2)
    else (1, r)

/-- The retry loop with the code's fixed `max_try = 5`. -/
def runRetry (collab : Nat → CallToolResult) : Nat × CallToolResult :=
  runRetryAux collab 0 5

/-- Collection of the text parts of a successful result, truncated to 256000
characters; a non-text part raises `NotImplementedError`. -/
def extractTexts : List ResultPart → Except ToolCallErr (List String)
  | [] => .ok []
  | .text s :: rest => (extractTexts rest).map (fun l => s.take 256000 :: l)
  | .other ty :: _ => .error (.notImplemented ty)

/-- Embedding of `MCPClient.process_tool_call`.  `parse` stands for
`json.loads` into the opaque JSON type `β`, `rend` for the f-string rendering
of a `CallToolResult`, `collab` for the collaborator. -/
def process_tool_call {β : Type} (parse : String → Option β)
    (rend : CallToolResult → String) (collab : Nat → CallToolResult)
    (tc : ToolCallReq) : Nat × Except ToolCallErr (ToolResultMsg β) :=
  if tc.ty = "function" then
    match parse (if tc.args.isEmpty then "\x7b\x7d" else tc.args) with
    | none => (0, .error .decodeErr)
    | some argsObj =>
      let p := runRetry collab
      if p.2.isError then
        (p.1, .ok ⟨argsObj, tc.name,
          ["[ERROR] Tool call failed: " ++ rend p.2], tc.id⟩)
      else
        match extractTexts p.2.content with
        | .error e => (p.1, .error e)
        | .ok texts => (p.1, .ok ⟨argsObj, tc.name, texts, tc.id⟩)
  else (0, .error .assertFailed)

theorem runRetryAux_count_le (collab : Nat → CallToolResult) :
    ∀ (fuel t : Nat), (runRetryAux collab t fuel).1 ≤ fuel := by
  intro fuel
  induction fuel using Nat.strong_induction_on with
  | _ fuel ih =>
    match fuel with
    | 0 => intro t; simp [runRetryAux]
    | 1 => intro t; simp [runRetryAux]
    | n + 2 =>
      intro t
      show (runRetryAux collab t (n + 2)).1 ≤ n + 2
      simp only [runRetryAux]
      by_cases h : (collab t).isError = true
      · simp only [h, if_true]
        have := ih (n + 1) (by omega) (t + 1)
        omega
      · simp only [h]
        simp

theorem runRetryAux_first_success (collab : Nat → CallToolResult) :
    ∀ (fuel t n : Nat), n < fuel →
      (∀ k, k < n → (collab (t + k)).isError = true) →
      (collab (t + n)).isError = false →
      runRetryAux collab t fuel = (n + 1, collab (t + n)) := by
  intro fuel
  induction fuel using Nat.strong_induction_on with
  | _ fuel ih =>
    match fuel with
    | 0 =>
      intro t n hn _ _
      omega
    | 1 =>
      intro t n hn _ _
      have hn0 : n = 0 := by omega
      subst hn0
      simp [runRetryAux]
    | m + 2 =>
      intro t n hn herr hsucc
      cases n with
      | zero =>
        have h0 : (collab t).isError = false := by simpa using hsucc
        simp [runRetryAux, h0]
      | succ n =>
        have h0 : (collab t).isError = true := by
          have := herr 0 (by omega)
          simpa using this
        have herr' : ∀ k, k < n → (collab (t + 1 + k)).isError = true := by
          intro k hk
          have := herr (k + 1) (by omega)
          rwa [show t + (k + 1) = t + 1 + k by omega] at this
        have hsucc' : (collab (t + 1 + n)).isError = false := by
          rwa [show t + (n + 1) = t + 1 + n by omega] at hsucc
        have hrec := ih (m + 1) (by omega) (t + 1) n (by omega) herr' hsucc'
        simp only [runRetryAux, h0, if_true]
        rw [hrec]
        refine Prod.ext ?_ ?_
        · simp
        · simp only []
          rw [show t + 1 + n = t + (n + 1) by omega]

theorem runRetryAux_all_error (collab : Nat → CallToolResult) :
    ∀ (fuel t : Nat), 1 ≤ fuel →
      (∀ k, k < fuel → (collab (t + k)).isError = true) →
      runRetryAux collab t fuel = (fuel, collab (t + fuel - 1)) := by
  intro fuel
  induction fuel using Nat.strong_induction_on with
  | _ fuel ih =>
    match fuel with
    | 0 =>
      intro t h _
      omega
    | 1 =>
      intro t _ _
      simp [runRetryAux]
    | m + 2 =>
      intro t _ herr
      have h0 : (collab t).isError = true := by
        have := herr 0 (by omega)
        simpa using this
      have herr' : ∀ k, k < m + 1 → (collab (t + 1 + k)).isError = true := by
        intro k hk
        have := herr (k + 1) (by omega)
        rwa [show t + (k + 1) = t + 1 + k by omega] at this
      have hrec := ih (m + 1) (by omega) (t + 1) (by omega) herr'
      simp only [runRetryAux, h0, if_true]
      rw [hrec]
      refine Prod.ext ?_ ?_
      · simp
      · simp only []
        rw [show t + 1 + (m + 1) - 1 = t + (m + 2) - 1 by omega]

/-- C3: for every single tool-call request (well-typed and with decodable
arguments), the dispatcher invokes the collaborator at most 5 times, stopping
at the first non-error response; if the collaborator errors twice then
succeeds, exactly 3 invocations occur and the success payload (the truncated
text parts) is returned; if all 5 invocations error, a result message whose
payload embeds the "[ERROR] Tool call failed:" marker is returned as a normal
value rather than an exception, so the batch is never aborted by retry
exhaustion. -/
theorem dispatch_retry_contract {β : Type} (parse : String → Option β)
    (rend : CallToolResult → String) (collab : Nat → CallToolResult)
    (tc : ToolCallReq) :
    ((process_tool_call parse rend collab tc).1 ≤ 5)
    ∧ (∀ n, n < 5 → (∀ k, k < n → (collab k).isError = true) →
        (collab n).isError = false → runRetry collab = (n + 1, collab n))
    ∧ (∀ (a : β) (texts : List String), tc.ty = "function" →
        parse (if tc.args.isEmpty then "\x7b\x7d" else tc.args) = some a →
        (collab 0).isError = true → (collab 1).isError = true →
        (collab 2).isError = false →
        extractTexts (collab 2).content = Except.ok texts →
        process_tool_call parse rend collab tc
          = (3, Except.ok ⟨a, tc.name, texts, tc.id⟩))
    ∧ (∀ (a : β), tc.ty = "function" →
        parse (if tc.args.isEmpty then "\x7b\x7d" else tc.args) = some a →
        (∀ k, k < 5 → (collab k).isError = true) →
        process_tool_call parse rend collab tc
          = (5, Except.ok ⟨a, tc.name,
              ["[ERROR] Tool call failed: " ++ rend (collab 4)], tc.id⟩)) := by
  refine ⟨?_, ?_, ?_, ?_⟩
  · unfold process_tool_call
    have hle : (runRetry collab).1 ≤ 5 := runRetryAux_count_le collab 5 0
    by_cases hty : tc.ty = "function"
    · rw [if_pos hty]
      cases hp : parse (if tc.args.isEmpty then "\x7b\x7d" else tc.args) with
      | none => simp
      | some a =>
        simp only []
        by_cases he : (runRetry collab).2.isError = true
        · simpa [he] using hle
        · simp only [he, Bool.false_eq_true, if_false]
          cases hx : extractTexts (runRetry collab).2.content with
          | error e => simpa using hle
          | ok texts => simpa using hle
    · rw [if_neg hty]
      simp
  · intro n hn herr hsucc
    have := runRetryAux_first_success collab 5 0 n hn
      (fun k hk => by simpa using herr k hk) (by simpa using hsucc)
    simpa [runRetry] using this
  · intro a texts hty hp h0 h1 h2 hx
    have hrr : runRetry collab = (3, collab 2) := by
      have := runRetryAux_first_success collab 5 0 2 (by omega)
        (fun k hk => by interval_cases k <;> simpa) (by simpa using h2)
      simpa [runRetry] using this
    unfold process_tool_call
    rw [if_pos hty, hp]
    simp only [hrr, h2, Bool.false_eq_true, if_false, hx]
  · intro a hty hp herr
    have hrr : runRetry collab = (5, collab 4) := by
      have := runRetryAux_all_error collab 5 0 (by omega)
        (fun k hk => by simpa using herr k hk)
      simpa [runRetry] using this
    have h4 : (collab 4).isError = true := herr 4 (by omega)
    unfold process_tool_call
    rw [if_pos hty, hp]
    simp only [hrr, h4, if_true]

/-- Helper for the C3 witness: the 256000-character truncation leaves the
short payload "ok" unchanged. -/
theorem take_256000_ok : ("ok" : String).take 256000 = "ok" := by
  rw [String.take_eq]
  rfl

/-- Collaborator of the C3 witness: errors on invocations 0 and 1, succeeds
with one text part "ok" from invocation 2 on. -/
def c3Collab : Nat → CallToolResult :=
  fun t => if t < 2 then ⟨true, []⟩ else ⟨false, [ResultPart.text "ok"]⟩

/-- Witness for C3: with the errors-twice-then-succeeds collaborator, the
dispatcher performs exactly 3 invocations and returns the success payload. -/
theorem dispatch_retry_contract_witness :
    process_tool_call (fun _ => some ()) (fun _ => "r") c3Collab
      ⟨"call1", "function", "echo", "a"⟩
      = (3, Except.ok ⟨(), "echo", ["ok"], "call1"⟩) :=
  (dispatch_retry_contract (fun _ => some ()) (fun _ => "r") c3Collab
    ⟨"call1", "function", "echo", "a"⟩).2.2.1 () ["ok"] rfl (by decide)
    (by decide) (by decide) (by decide)
    (by simp [extractTexts, c3Collab, take_256000_ok, Except.map])

/-- C10: for every finalized tool-call request whose aggregated arguments
string is non-empty but undecodable, dispatch raises the decode exception
(`Except.error`, an uncaught `json.JSONDecodeError` aborting the whole round
trip) before performing any collaborator invocation (count 0), instead of
embedding an error result; an empty arguments string is instead decoded as
the literal empty-object text. -/
theorem malformed_args_abort {β : Type} (parse : String → Option β)
    (rend : CallToolResult → String) (collab : Nat → CallToolResult)
    (tc : ToolCallReq) :
    (tc.ty = "function" → tc.args.isEmpty = false → parse tc.args = none →
      process_tool_call parse rend collab tc
        = (0, Except.error ToolCallErr.decodeErr))
    ∧ (tc.ty = "function" → tc.args.isEmpty = true →
      process_tool_call parse rend collab tc
        = process_tool_call parse rend collab ⟨tc.id, tc.ty, tc.name, "\x7b\x7d"⟩) := by
  constructor
  · intro hty hne hp
    unfold process_tool_call
    rw [if_pos hty, if_neg (by simp [hne]), hp]
  · intro hty he
    simp only [process_tool_call, hty, he, eq_self_iff_true, if_true,
      show ("\x7b\x7d" : String).isEmpty = false from rfl, Bool.false_eq_true,
      if_false]

/-- Witness for C10: a non-empty malformed arguments string yields the decode
error with zero collaborator invocations. -/
theorem malformed_args_abort_witness :
    process_tool_call (fun s => if s = "\x7b\x7d" then some () else none)
      (fun _ => "r") (fun _ => ⟨false, []⟩) ⟨"c", "function", "echo", "bad"⟩
      = (0, Except.error ToolCallErr.decodeErr) :=
  (malformed_args_abort (fun s => if s = "\x7b\x7d" then some () else none)
    (fun _ => "r") (fun _ => ⟨false, []⟩)
    ⟨"c", "function", "echo", "bad"⟩).1 rfl (by decide) (by decide)

/-! ### Memory: `add_memory_entries` (developer.py lines 23–29,
sequence_planner.py lines 20–26) and `MCPClient.load_memory` (client.py
lines 342–358)

A chroma collection is modeled as the list of its `(id, document)` pairs in
insertion order; `collection.add(ids=…, documents=…)` appends the zipped
pairs.  Each agent object carries its own `id_counter` (initialized to `0` in
`DEVELOPER.__init__` and `FORMAT_ANALYST.__init__`; caller-supplied for
`SEQUENCE_PLANNER`); `add_memory_entries` stringifies
`id_counter, id_counter+1, …` with `str()` and bumps the counter.
`MCPClient.load_memory` only calls `db.add(ids=data['ids'],
documents=data['documents'])` on the snapshot content: no id counter is read,
restored, or updated anywhere in it. -/

/-- Chroma `collection.add(ids=…, documents=…)`. -/
def collAdd (coll : List (String × String)) (ids : List String)
    (docs : List String) : List (String × String) :=
  coll ++ ids.zip docs

/-- An agent's memory view: its own `id_counter` plus the collection the
entries go to. -/
structure AgentMem where
  id_counter : Nat
  db : List (String × String)
deriving DecidableEq

/-- Embedding of `add_memory_entries`:
`ids = [str(self.id_counter + i) for i in range(len(entries))]`, bump the
counter by `len(entries)`, then `add`. -/
def add_memory_entries (st : AgentMem) (entries : List String) : AgentMem :=
  ⟨st.id_counter + entries.length,
   collAdd st.db
     ((List.range entries.length).map (fun i => toString (st.id_counter + i)))
     entries⟩

/-- Embedding of the committing step of `MCPClient.load_memory`: the
snapshot's ids and documents are added to the collection; the agent's
`id_counter` is untouched (the method has no access to any counter). -/
def load_memory (st : AgentMem) (ids : List String) (docs : List String) :
    AgentMem :=
  ⟨st.id_counter, collAdd st.db ids docs⟩

/-- C2 counterexample: load a snapshot holding id "0", then perform one add
with a fresh agent counter (as `DEVELOPER.__init__` creates): the counter was
not resumed above the snapshot's maximum id (it is still 0, not 1), and the
add assigns id "0" a second time, so the collection's id list "0", "0" has a
duplicate — the claimed no-reuse invariant fails on the code. -/
theorem id_reuse_counterexample :
    (load_memory ⟨0, []⟩ ["0"] ["old"]).id_counter = 0
    ∧ ((add_memory_entries (load_memory ⟨0, []⟩ ["0"] ["old"]) ["new"]).db.map
        Prod.fst) = ["0", "0"]
    ∧ ¬ ((add_memory_entries (load_memory ⟨0, []⟩ ["0"] ["old"]) ["new"]).db.map
        Prod.fst).Nodup := by
  refine ⟨rfl, ?_, ?_⟩ <;> decide

/-- Numeric ids assigned by a run of add batches starting from counter `c`. -/
def addedIdsFrom (c : Nat) : List (List String) → List Nat
  | [] => []
  | b :: bs => (List.range b.length).map (fun i => c + i)
      ++ addedIdsFrom (c + b.length) bs

theorem addedIdsFrom_le :
    ∀ (bs : List (List String)) (c x : Nat), x ∈ addedIdsFrom c bs → c ≤ x := by
  intro bs
  induction bs with
  | nil =>
    intro c x hx
    simp [addedIdsFrom] at hx
  | cons b rest ih =>
    intro c x hx
    simp only [addedIdsFrom, List.mem_append, List.mem_map, List.mem_range] at hx
    rcases hx with ⟨i, _, rfl⟩ | hx
    · omega
    · have := ih (c + b.length) x hx
      omega

theorem addedIdsFrom_pairwise :
    ∀ (bs : List (List String)) (c : Nat),
      List.Pairwise (· < ·) (addedIdsFrom c bs) := by
  intro bs
  induction bs with
  | nil => intro c; simp [addedIdsFrom]
  | cons b rest ih =>
    intro c
    simp only [addedIdsFrom]
    rw [List.pairwise_append]
    refine ⟨?_, ih (c + b.length), ?_⟩
    · exact (List.pairwise_lt_range b.length).map _ (fun a b hab => by omega)
    · intro x hx y hy
      simp only [List.mem_map, List.mem_range] at hx
      obtain ⟨i, hi, rfl⟩ := hx
      have := addedIdsFrom_le rest (c + b.length) y hy
      omega

/-- C2 amended: within a single agent instance, successive
`add_memory_entries` calls assign strictly increasing, never-repeating
numeric ids (the integers the code stringifies), the counter advancing by
each batch's size — so no id is assigned twice by that agent; but
`load_memory` leaves the id counter unchanged (it restores no counter at
all), which is why a reload followed by adds from a fresh counter can reuse
snapshot ids (see the counterexample). -/
theorem add_ids_strictly_increasing_load_keeps_counter :
    (∀ (st : AgentMem) (ids docs : List String),
      (load_memory st ids docs).id_counter = st.id_counter)
    ∧ (∀ (batches : List (List String)) (c : Nat) (db : List (String × String)),
        (batches.foldl add_memory_entries ⟨c, db⟩).id_counter
            = c + (batches.map List.length).sum
        ∧ List.Pairwise (· < ·) (addedIdsFrom c batches)
        ∧ (batches.foldl add_memory_entries ⟨c, db⟩).db
            = db ++ ((addedIdsFrom c batches).map toString).zip batches.flatten) := by
  constructor
  · intro st ids docs
    rfl
  · intro batches
    induction batches with
    | nil =>
      intro c db
      refine ⟨by simp, by simp [addedIdsFrom], by simp [addedIdsFrom]⟩
    | cons b rest ih =>
      intro c db
      have hstep : add_memory_entries ⟨c, db⟩ b
          = ⟨c + b.length,
              db ++ ((List.range b.length).map (fun i => toString (c + i))).zip b⟩ :=
        rfl
      have hrec := ih (c + b.length)
        (db ++ ((List.range b.length).map (fun i => toString (c + i))).zip b)
      refine ⟨?_, addedIdsFrom_pairwise (b :: rest) c, ?_⟩
      · rw [List.foldl_cons, hstep, hrec.1]
        simp
        omega
      · rw [List.foldl_cons, hstep, hrec.2.2]
        have hlen : ((List.range b.length).map
            (fun i => toString (c + i))).length = b.length := by
          simp
        have hmm : (addedIdsFrom c (b :: rest)).map toString
            = (List.range b.length).map (fun i => toString (c + i))
              ++ (addedIdsFrom (c + b.length) rest).map toString := by
          simp [addedIdsFrom, List.map_map]
        rw [show (b :: rest).flatten = b ++ rest.flatten from rfl, hmm,
          List.zip_append hlen, List.append_assoc]

/-! ### Agent task loops: `SEQUENCE_PLANNER.plan_sequence`
(sequence_planner.py lines 39–124) and `DEVELOPER.develop_new_seed`
(developer.py lines 49–169)

Both loops run `for t in range(max_tries)`, rebuild the prompt, call
`mcp_client.process_messages_streaming(messages)` and inspect
`message_to_json` of the final assistant content.  The environment is
abstracted as `env : Nat → Except Unit String`, attempt `t`'s outcome of the
streaming call: `Except.error` models a raised exception (caught by the
`except Exception` handler), `Except.ok resp` the final assistant message
content `messages[-1]['content']`.  Note the `except json.JSONDecodeError`
handlers are dead code: `message_to_json` never raises.

`plan_sequence` is modeled with its commit trace: the returned pair is
(return value, documents passed to `add_memory_entries`, in order).
`FORMAT_ANALYST.analyze_from_inputs` (format_analyst.py lines 307–396) has
the identical control flow, so the same model covers the C1 sources.  On a
successful streaming call the code unconditionally commits
`json.dumps(response_json)` — even when the extraction came back empty — and
then either breaks with "Success" (non-final attempt) or returns "Failed"
(final attempt). -/

/-- One-iteration-at-a-time embedding of the `plan_sequence` retry loop:
first argument is the current attempt index `t`, second the remaining
iterations of `range(max_tries)`. -/
def planSeqFrom {α : Type} (parse : String → Option α) (dumps : α → String)
    (empty : α) (env : Nat → Except Unit String) :
    Nat → Nat → String × List String
  | _, 0 => ("Success", [])
  | t, fuel + 1 =>
    match env t with
    | .error _ =>
      if fuel = 0 then ("Failed", [])
      else planSeqFrom parse dumps empty env (t + 1) fuel
    | .ok resp =>
      if fuel = 0 then
        ("Failed", [dumps (message_to_json parse empty resp)])
      else
        ("Success", [dumps (message_to_json parse empty resp)])

/-- Embedding of `SEQUENCE_PLANNER.plan_sequence`: returns the status string
and the list of documents committed to the memory store. -/
def plan_sequence {α : Type} (parse : String → Option α) (dumps : α → String)
    (empty : α) (env : Nat → Except Unit String) (max_tries : Nat) :
    String × List String :=
  planSeqFrom parse dumps empty env 0 max_tries

/-- C1: an agent task loop configured with `max_attempts = 3` whose extractor
yields the empty value on attempts 1 and 2 and a valid (non-empty) structured
value on attempt 3 reports Success and commits exactly one document to its
memory store — not three documents, and not Failed.  (On the code the loop
already accepts attempt 1: it commits that attempt's dumped extraction and
breaks with "Success", so exactly one document is committed and attempts 2
and 3 never run.) -/
theorem plan_sequence_three_attempt_scenario {α : Type}
    (parse : String → Option α) (dumps : α → String) (empty : α)
    (env : Nat → Except Unit String) (r0 r1 r2 : String) (v : α)
    (h0 : env 0 = Except.ok r0) (h1 : env 1 = Except.ok r1)
    (h2 : env 2 = Except.ok r2)
    (he0 : message_to_json parse empty r0 = empty)
    (he1 : message_to_json parse empty r1 = empty)
    (hv : message_to_json parse empty r2 = v) (hne : v ≠ empty) :
    (plan_sequence parse dumps empty env 3).1 = "Success"
    ∧ (plan_sequence parse dumps empty env 3).2.length = 1 := by
  have hstep : plan_sequence parse dumps empty env 3
      = (match env 0 with
        | .error _ => planSeqFrom parse dumps empty env 1 2
        | .ok resp =>
          ("Success", [dumps (message_to_json parse empty resp)])) := rfl
  rw [hstep, h0]
  exact ⟨rfl, rfl⟩

/-- Witness for C1: a concrete environment whose first two responses carry no
fenced block and whose third carries a valid one. -/
theorem plan_sequence_three_attempt_scenario_witness :
    (plan_sequence (fun s => if s = "v" then some 1 else none) toString 0
      (fun t => if t = 2 then Except.ok "```json v ```"
        else Except.ok "nothing") 3).1 = "Success"
    ∧ (plan_sequence (fun s => if s = "v" then some 1 else none) toString 0
      (fun t => if t = 2 then Except.ok "```json v ```"
        else Except.ok "nothing") 3).2.length = 1 :=
  plan_sequence_three_attempt_scenario
    (fun s => if s = "v" then some 1 else none) toString 0
    (fun t => if t = 2 then Except.ok "```json v ```" else Except.ok "nothing")
    "nothing" "nothing" "```json v ```" 1
    rfl rfl rfl (by decide) (by decide) (by decide) (by decide)

/-- Extraction result of the Developer loop as the code inspects it:
`response_json.get("status")` and the `"seed_name"` key.  The empty dict
`{}` (extraction failure) has both fields absent. -/
structure DevResp where
  status : Option String
  seed_name : Option String
deriving DecidableEq

/-- View of `message_to_json`'s empty result `{}` through the Developer's
two accessors. -/
def devEmpty : DevResp := ⟨none, none⟩

/-- One-iteration-at-a-time embedding of the `develop_new_seed` retry loop
(developer.py lines 50–169).  `fileExists` models
`os.path.exists(os.path.join(RESULT_PATH, "seed_DB", seed_name))`.  Paths:
streaming exception → "Failed" on the final attempt, else retry; extracted
status "Success" with an existing seed file → break, then the post-loop
`return "Success"`; missing file → "Failed" on the final attempt, else
retry; any other extraction (empty dict or status "Failed") → on the final
attempt the code prints the max-attempts warning and `break`s, falling
through to `return "Success"`. -/
def developFrom (parse : String → Option DevResp) (fileExists : String → Bool)
    (env : Nat → Except Unit String) : Nat → Nat → String
  | _, 0 => "Success"
  | t, fuel + 1 =>
    match env t with
    | .error _ =>
      if fuel = 0 then "Failed"
      else developFrom parse fileExists env (t + 1) fuel
    | .ok resp =>
      let j := message_to_json parse devEmpty resp
      if hs : j.status = some "Success" ∧ j.seed_name.isSome then
        if fileExists (j.seed_name.get hs.2) then "Success"
        else if fuel = 0 then "Failed"
        else developFrom parse fileExists env (t + 1) fuel
      else
        if fuel = 0 then "Success"
        else developFrom parse fileExists env (t + 1) fuel

/-- Embedding of `DEVELOPER.develop_new_seed` (status string only). -/
def develop_new_seed (parse : String → Option DevResp)
    (fileExists : String → Bool) (env : Nat → Except Unit String)
    (max_tries : Nat) : String :=
  developFrom parse fileExists env 0 max_tries

/-- C8 failing input, evaluated: with `max_tries = 3`, when every attempt's
extraction fails (no fenced block, hence the empty dict and no "Success"
status), the final attempt takes the `break` that falls through to the
post-loop `return "Success"`: the function returns "Success", not "Failed" —
contradicting both the claim and the warning the code itself logs
("Task is marked as incomplete").  No seed file exists
(`fileExists = fun _ => false`), yet Success is declared. -/
theorem develop_new_seed_all_failures_returns_success :
    develop_new_seed (fun _ => none) (fun _ => false)
      (fun _ => Except.ok "no json block") 3 = "Success"
    ∧ develop_new_seed (fun _ => none) (fun _ => false)
      (fun _ => Except.ok "no json block") 3 ≠ "Failed" := by
  refine ⟨?_, ?_⟩ <;> decide
